import Mathlib

set_option maxHeartbeats 1000000

namespace RaftPort

/-- Runtime type identity of an element type, the shallow image of
`std::type_index( typeid( T ) )`.  Two occurrences of the same `T` yield equal tags. -/
structure TypeTag where
  id : Nat
deriving DecidableEq, Repr

/-- The storage classes `Type::Heap` and `Type::SharedMemory` used as keys of
`PortInfo::const_map` in `initializeConstMap`. -/
inductive StorageClass
  | Heap
  | SharedMemory
deriving DecidableEq, Repr

/-- A registered queue factory, identified by the template instantiation
`RingBuffer< T, cls, instrumented >::make_new_fifo` that produced the function pointer. -/
structure Factory where
  elem : TypeTag
  cls : StorageClass
  instrumented : Bool
deriving DecidableEq, Repr

/-- The inner `instr_map_t`, a `std::map< bool, FIFO constructor >`, as an association
list in key-insertion order. -/
abbrev InstrMap := List (Bool × Factory)

/-- `std::map::insert` on the inner map: inserts only when the key is absent, never
overwrites. -/
def instrInsert (m : InstrMap) (k : Bool) (v : Factory) : InstrMap :=
  if m.any (fun e => e.1 == k) then m else m ++ [(k, v)]

/-- Lookup in the inner map. -/
def instrFind (m : InstrMap) (k : Bool) : Option Factory :=
  (m.find? (fun e => e.1 == k)).map (fun e => e.2)

/-- `PortInfo::const_map`, a `std::map< Type::RingBufferType, instr_map_t* >`. -/
abbrev ConstMap := List (StorageClass × InstrMap)

/-- `const_map.insert( make_pair( k, new instr_map_t() ) )`: inserts an empty inner map
only when `k` is absent. -/
def cmInsert (m : ConstMap) (k : StorageClass) : ConstMap :=
  if m.any (fun e => e.1 == k) then m else m ++ [(k, [])]

/-- `const_map[ k ]->insert( make_pair( kb, f ) )`: `operator[]` default-constructs an
empty inner map when `k` is absent, then the factory is inserted into the mapped
inner map in place. -/
def cmAt (m : ConstMap) (k : StorageClass) (kb : Bool) (f : Factory) : ConstMap :=
  if m.any (fun e => e.1 == k) then
    m.map (fun e => if e.1 == k then (e.1, instrInsert e.2 kb f) else e)
  else m ++ [(k, instrInsert [] kb f)]

/-- Lookup of a factory under `(storage class, instrumentation flag)`. -/
def cmFind (m : ConstMap) (k : StorageClass) (kb : Bool) : Option Factory :=
  match m.find? (fun e => e.1 == k) with
  | some e => instrFind e.2 kb
  | none => none

/-- Total number of registered factories across all storage classes. -/
def cmSize (m : ConstMap) : Nat := (m.map (fun e => e.2.length)).sum

/-- `Port::initializeConstMap<T>`: registers `(Heap, false)`, `(Heap, true)` and
`(SharedMemory, false)`; no instrumented shared-memory variant is registered. -/
def initializeConstMap (T : TypeTag) : ConstMap :=
  let m0 : ConstMap := cmInsert [] .Heap
  let m1 := cmAt m0 .Heap false ⟨T, .Heap, false⟩
  let m2 := cmAt m1 .Heap true ⟨T, .Heap, true⟩
  let m3 := cmInsert m2 .SharedMemory
  cmAt m3 .SharedMemory false ⟨T, .SharedMemory, false⟩

/-- The pre-allocated-buffer descriptor carried by a `PortInfo` built in `addPorts`:
the raw pointer `&existing_buff_t[ start_index ]` (as a byte address), the element
count `nitems` and the element offset `start_index`. -/
structure PreAlloc where
  ptr : Nat
  nitems : Nat
  start_index : Nat
deriving DecidableEq, Repr

/-- The `PortInfo` record stored in the port table: element-type tag, owning kernel
(as an opaque id, `0` modelling `nullptr`), name, optional pre-allocated descriptor
and the factory registry. -/
structure PortInfo where
  typ : TypeTag
  my_kernel : Nat
  my_name : String
  prealloc : Option PreAlloc
  const_map : ConstMap
deriving DecidableEq, Repr

/-- The `portmap_t::map` table, as an association list in key-insertion order. -/
abbrev PortMap := List (String × PortInfo)

/-- `portmap.map.insert( make_pair( k, v ) )`: returns `ret_val.second` (whether the
pair was inserted) and the resulting table; an existing key is never overwritten. -/
def pmInsert (m : PortMap) (k : String) (v : PortInfo) : Bool × PortMap :=
  if m.any (fun e => e.1 == k) then (false, m) else (true, m ++ [(k, v)])

/-- Lookup of the record bound to a name. -/
def pmFind (m : PortMap) (k : String) : Option PortInfo :=
  (m.find? (fun e => e.1 == k)).map (fun e => e.2)

/-- The `Port` container state: its table, owning kernel, and the pre-allocated
buffer descriptor `alloc_ptr` (byte address, `0` modelling `nullptr`) with
`alloc_ptr_length` in bytes. -/
structure Port where
  portmap : PortMap
  kernel : Nat
  alloc_ptr : Nat
  alloc_ptr_length : Nat
deriving DecidableEq, Repr

/-- `Port( raft::kernel *k )`: the standard constructor, leaving `alloc_ptr = nullptr`
and `alloc_ptr_length = 0`. -/
def Port.mk0 (kernel : Nat) : Port := ⟨[], kernel, 0, 0⟩

/-- `Port( raft::kernel *k, void * const ptr, const std::size_t nbytes )`: the
pre-allocated-buffer constructor. -/
def Port.mkPre (kernel aptr nbytes : Nat) : Port := ⟨[], kernel, aptr, nbytes⟩

/-- The `PortInfo` built by `Port::addPort<T>( port_name )` before insertion. -/
def addPortRec (kernel : Nat) (T : TypeTag) (port_name : String) : PortInfo :=
  { typ := T, my_kernel := kernel, my_name := port_name, prealloc := none,
    const_map := initializeConstMap T }

/-- `Port::addPort<T>( port_name )`: builds the record, registers the factories and
returns `ret_val.second` of the map insertion together with the new state. -/
def Port.addPort (p : Port) (T : TypeTag) (port_name : String) : Bool × Port :=
  let r := pmInsert p.portmap port_name (addPortRec p.kernel T port_name)
  (r.1, { p with portmap := r.2 })

/-- The `PortInfo` built by the `Port::addPorts<T>` loop body at `index`:
`start_index = index * inc`, pointer `&existing_buff_t[ start_index ]`, and
`nitems = inc + ( index == n_ports - 1 ? adder : 0 )`.  `szT` is `sizeof( T )`. -/
def addPortsRec (kernel aptr : Nat) (T : TypeTag) (szT inc adder n_ports index : Nat) :
    PortInfo :=
  { typ := T, my_kernel := kernel, my_name := Nat.repr index,
    prealloc := some { ptr := aptr + (index * inc) * szT,
                       nitems := inc + (if index = n_ports - 1 then adder else 0),
                       start_index := index * inc },
    const_map := initializeConstMap T }

/-- One iteration of the `addPorts` loop: inserts the record named
`std::to_string( index )`; the second component counts the insertions whose
`ret_val.second` was true (the source computes and then discards this value). -/
def addPortsStep (kernel aptr : Nat) (T : TypeTag) (szT inc adder n_ports : Nat)
    (st : PortMap × Nat) (index : Nat) : PortMap × Nat :=
  let r := pmInsert st.1 (Nat.repr index)
      (addPortsRec kernel aptr T szT inc adder n_ports index)
  (r.2, st.2 + (if r.1 then 1 else 0))

/-- `Port::addPorts<T>( n_ports )` with `szT = sizeof( T )`.  `none` models the
division by zero in `length / n_ports` when `n_ports == 0`; otherwise the boolean is
the value returned by the source, which is always `true`. -/
def Port.addPorts (p : Port) (T : TypeTag) (szT n_ports : Nat) : Option (Bool × Port) :=
  if n_ports = 0 then none
  else
    let length := p.alloc_ptr_length / szT
    let inc := length / n_ports
    let adder := length % n_ports
    let r := (List.range n_ports).foldl
      (addPortsStep p.kernel p.alloc_ptr T szT inc adder n_ports) (p.portmap, 0)
    some (true, { p with portmap := r.1 })

/-- The error taxonomy raised by lookups. -/
inductive PortError
  | PortNotFound
  | AmbiguousPort
deriving DecidableEq, Repr

/-- Modelled from the spec: the body of `Port::getPortType` is not under `src/` (only
its declaration is); per the spec it fails with `PortNotFound` iff the name is absent,
otherwise returns the stored type tag. -/
def Port.getPortType (p : Port) (port_name : String) : Except PortError TypeTag :=
  match pmFind p.portmap port_name with
  | some pi => .ok pi.typ
  | none => .error .PortNotFound

/-- Modelled from the spec: the body of `Port::operator[]` is not under `src/`; per the
spec it fails with `PortNotFound` iff the name was never declared, otherwise yields the
record through which the externally materialized FIFO is reached. -/
def Port.indexOp (p : Port) (port_name : String) : Except PortError PortInfo :=
  match pmFind p.portmap port_name with
  | some pi => .ok pi
  | none => .error .PortNotFound

/-- Modelled from the spec: the body of `Port::getPortInfoFor` is not under `src/`;
per the spec it fails with `PortNotFound` iff the name is absent. -/
def Port.getPortInfoFor (p : Port) (port_name : String) : Except PortError PortInfo :=
  match pmFind p.portmap port_name with
  | some pi => .ok pi
  | none => .error .PortNotFound

/-- Modelled from the spec: the body of `Port::count` is not under `src/`; per the
spec it is the number of declared ports in the table. -/
def Port.count (p : Port) : Nat := p.portmap.length

/-- Modelled from the spec: the body of `Port::hasPorts` is not under `src/`; per the
spec it is true iff the table is non-empty. -/
def Port.hasPorts (p : Port) : Bool := !p.portmap.isEmpty

/-- Modelled from the spec: the body of `Port::getPortInfo` is not under `src/`; per
the spec it returns the unique record when the table has exactly one entry and fails
with `AmbiguousPort` when it has zero or more than one. -/
def Port.getPortInfo (p : Port) : Except PortError PortInfo :=
  match p.portmap with
  | [e] => .ok e.2
  | _ => .error .AmbiguousPort

/-- Modelled from the spec: `begin`/`end` bodies and the concrete map type of
`portmap_t` are not under `src/`; per the spec, enumeration traverses the table's
`(name, record)` pairs in a deterministic, stable order fixed by the insertion
sequence, modelled as insertion order.  This lists the visited names. -/
def Port.enumerate (p : Port) : List String := p.portmap.map (fun e => e.1)

/-- A declaration operation on a port: the two mutators of the table. -/
inductive Op
  | addPort (T : TypeTag) (name : String)
  | addPorts (T : TypeTag) (szT n_ports : Nat)

/-- Apply one operation; an `addPorts` that would divide by zero leaves no successor
state and is modelled as the identity. -/
def Port.applyOp (p : Port) : Op → Port
  | .addPort T name => (p.addPort T name).2
  | .addPorts T szT n =>
    match p.addPorts T szT n with
    | some r => r.2
    | none => p

/-- Run a sequence of declaration operations. -/
def Port.runOps (p : Port) (ops : List Op) : Port := ops.foldl Port.applyOp p

/-- The candidate `(name, record)` pairs an operation tries to insert, in loop order. -/
def Port.opCandidates (p : Port) : Op → List (String × PortInfo)
  | .addPort T name => [(name, addPortRec p.kernel T name)]
  | .addPorts T szT n =>
    if n = 0 then []
    else
      (List.range n).map (fun i =>
        (Nat.repr i,
         addPortsRec p.kernel p.alloc_ptr T szT
           (p.alloc_ptr_length / szT / n) (p.alloc_ptr_length / szT % n) n i))

/-- Sequentially insert candidate pairs with `pmInsert`. -/
def insertAll (m : PortMap) : List (String × PortInfo) → PortMap
  | [] => m
  | (k, v) :: rest => insertAll (pmInsert m k v).2 rest

/-- The names of the candidate pairs that are actually inserted, in order. -/
def pmInsertNames (m : PortMap) : List (String × PortInfo) → List String
  | [] => []
  | (k, v) :: rest =>
    let r := pmInsert m k v
    (if r.1 then [k] else []) ++ pmInsertNames r.2 rest

/-- The names successfully inserted by a sequence of operations, in insertion order. -/
def Port.insertedNames (p : Port) : List Op → List String
  | [] => []
  | o :: rest => pmInsertNames p.portmap (p.opCandidates o) ++ (p.applyOp o).insertedNames rest

/-- Offset, in elements, of slice `i` when a buffer of `L` elements is split into `n`
slices as `addPorts` does. -/
def sliceStart (L n i : Nat) : Nat := i * (L / n)

/-- Length, in elements, of slice `i`: `floor( L / n )`, the last slice absorbing the
remainder. -/
def sliceLen (L n i : Nat) : Nat := L / n + (if i = n - 1 then L % n else 0)

/-- The keys of a table, in table order. -/
def pmKeys (m : PortMap) : List String := m.map (fun e => e.1)

/-- Every record of the table carries the factory registry built for its element type. -/
def TableInv (m : PortMap) : Prop :=
  ∀ e ∈ m, e.2.const_map = initializeConstMap e.2.typ

/-- The table `addPorts` produces when it starts from an empty one. -/
def addPortsTable (p : Port) (T : TypeTag) (szT n : Nat) : PortMap :=
  (List.range n).map (fun i =>
    (Nat.repr i,
     addPortsRec p.kernel p.alloc_ptr T szT (p.alloc_ptr_length / szT / n)
       (p.alloc_ptr_length / szT % n) n i))

/-- The state `addPorts` produces when it starts from an empty table. -/
def addPortsResult (p : Port) (T : TypeTag) (szT n : Nat) : Port :=
  { p with portmap := addPortsTable p T szT n }

/-! ### Decimal representation: `Nat.repr` is injective -/

/-- Numeric value of a decimal digit character. -/
def digitVal (c : Char) : Nat := c.toNat - 48

/-- Decode a most-significant-first digit string, starting from accumulator `a`. -/
def decodeDigits (l : List Char) (a : Nat) : Nat :=
  l.foldl (fun x c => 10 * x + digitVal c) a

lemma decodeDigits_nil (a : Nat) : decodeDigits [] a = a := rfl

lemma decodeDigits_cons (c : Char) (l : List Char) (a : Nat) :
    decodeDigits (c :: l) a = decodeDigits l (10 * a + digitVal c) := rfl

lemma digitVal_digitChar (d : Nat) (h : d < 10) : digitVal (Nat.digitChar d) = d := by
  interval_cases d <;> decide

lemma decodeDigits_toDigitsCore :
    ∀ (fuel n : Nat) (acc : List Char) (a : Nat), n < fuel →
    ∃ k, 0 < k ∧ n < 10 ^ k ∧
      decodeDigits (Nat.toDigitsCore 10 fuel n acc) a = decodeDigits acc (a * 10 ^ k + n) := by
  intro fuel
  induction fuel with
  | zero => intro n acc a h; omega
  | succ f ih =>
    intro n acc a hn
    by_cases h10 : n / 10 = 0
    · refine ⟨1, by omega, by rw [pow_one]; omega, ?_⟩
      have he : Nat.toDigitsCore 10 (f + 1) n acc = Nat.digitChar (n % 10) :: acc := by
        simp [Nat.toDigitsCore, h10]
      rw [he, decodeDigits_cons, digitVal_digitChar (n % 10) (Nat.mod_lt n (by omega))]
      congr 1
      rw [pow_one]
      omega
    · have hlt : n / 10 < f := by omega
      obtain ⟨k, hk0, hklt, hdec⟩ := ih (n / 10) (Nat.digitChar (n % 10) :: acc) a hlt
      have hpow : 10 ^ (k + 1) = 10 * 10 ^ k := by ring
      refine ⟨k + 1, by omega, by omega, ?_⟩
      have he : Nat.toDigitsCore 10 (f + 1) n acc
          = Nat.toDigitsCore 10 f (n / 10) (Nat.digitChar (n % 10) :: acc) := by
        simp [Nat.toDigitsCore, h10]
      rw [he, hdec, decodeDigits_cons,
        digitVal_digitChar (n % 10) (Nat.mod_lt n (by omega))]
      congr 1
      have hmul : a * 10 ^ (k + 1) = 10 * (a * 10 ^ k) := by ring
      omega

lemma decodeDigits_natRepr (n : Nat) : decodeDigits (Nat.toDigits 10 n) 0 = n := by
  obtain ⟨k, _, _, h⟩ := decodeDigits_toDigitsCore (n + 1) n [] 0 (Nat.lt_succ_self n)
  simpa [Nat.toDigits, decodeDigits_nil] using h

lemma natRepr_injective {m n : Nat} (h : Nat.repr m = Nat.repr n) : m = n := by
  have hd : Nat.toDigits 10 m = Nat.toDigits 10 n := by
    have hdata := congrArg String.data h
    simpa [Nat.repr, List.asString] using hdata
  have hv := congrArg (fun l => decodeDigits l 0) hd
  simpa [decodeDigits_natRepr] using hv

/-! ### Table lemmas -/

lemma pmFind_cons (e : String × PortInfo) (rest : PortMap) (k : String) :
    pmFind (e :: rest) k = if e.1 = k then some e.2 else pmFind rest k := by
  by_cases h : e.1 = k <;> simp [pmFind, h]

lemma pmFind_append (m m2 : PortMap) (k : String) :
    pmFind (m ++ m2) k = (pmFind m k).or (pmFind m2 k) := by
  cases h : List.find? (fun e => e.1 == k) m <;>
    simp [pmFind, List.find?_append, h]

lemma pmAny_eq_isSome (m : PortMap) (k : String) :
    m.any (fun e => e.1 == k) = (pmFind m k).isSome := by
  induction m with
  | nil => rfl
  | cons e rest ih =>
    by_cases h : e.1 = k
    · simp [pmFind_cons, h]
    · simp [pmFind_cons, h, ih]

lemma pmFind_isSome_iff (m : PortMap) (k : String) :
    (pmFind m k).isSome = true ↔ k ∈ pmKeys m := by
  induction m with
  | nil => simp [pmFind, pmKeys]
  | cons e rest ih =>
    by_cases h : e.1 = k
    · simp [pmFind_cons, pmKeys, h]
    · rw [pmFind_cons, if_neg h, ih]
      simp only [pmKeys, List.map_cons, List.mem_cons]
      constructor
      · intro hk
        exact Or.inr hk
      · intro hk
        rcases hk with hk | hk
        · exact absurd hk.symm h
        · exact hk

lemma pmFind_none_iff (m : PortMap) (k : String) :
    pmFind m k = none ↔ k ∉ pmKeys m := by
  rw [← pmFind_isSome_iff]
  cases pmFind m k <;> simp

lemma pmInsert_fst (m : PortMap) (k : String) (v : PortInfo) :
    (pmInsert m k v).1 = true ↔ pmFind m k = none := by
  rw [pmInsert, pmAny_eq_isSome]
  cases h : pmFind m k <;> simp [h]

lemma pmInsert_snd (m : PortMap) (k : String) (v : PortInfo) :
    (pmInsert m k v).2 = m ++ (if (pmInsert m k v).1 then [(k, v)] else []) := by
  rw [pmInsert]
  by_cases h : (m.any (fun e => e.1 == k)) = true <;> simp [h]

lemma pmFind_append_some {m : PortMap} {k : String} {v : PortInfo} (m2 : PortMap)
    (h : pmFind m k = some v) : pmFind (m ++ m2) k = some v := by
  rw [pmFind_append, h]
  rfl

lemma pmInsert_find_self {m : PortMap} {k : String} (v : PortInfo)
    (h : pmFind m k = none) : pmFind (pmInsert m k v).2 k = some v := by
  have hb : (pmInsert m k v).1 = true := (pmInsert_fst m k v).mpr h
  rw [pmInsert_snd, if_pos hb, pmFind_append, h]
  simp [pmFind_cons]

lemma pmInsert_preserves {m : PortMap} {k2 : String} {w : PortInfo}
    (k : String) (v : PortInfo) (h : pmFind m k2 = some w) :
    pmFind (pmInsert m k v).2 k2 = some w := by
  rw [pmInsert_snd]
  exact pmFind_append_some _ h

lemma pmInsert_keys (m : PortMap) (k : String) (v : PortInfo) :
    pmKeys (pmInsert m k v).2 = pmKeys m ++ (if (pmInsert m k v).1 then [k] else []) := by
  rw [pmInsert_snd]
  by_cases h : (pmInsert m k v).1 = true <;> simp [pmKeys, h]

lemma pmInsert_length (m : PortMap) (k : String) (v : PortInfo) :
    (pmInsert m k v).2.length = m.length + (if (pmInsert m k v).1 then 1 else 0) := by
  rw [pmInsert_snd]
  by_cases h : (pmInsert m k v).1 = true <;> simp [h]

lemma pmInsert_nodup {m : PortMap} (k : String) (v : PortInfo)
    (h : (pmKeys m).Nodup) : (pmKeys (pmInsert m k v).2).Nodup := by
  rw [pmInsert_keys]
  by_cases hb : (pmInsert m k v).1 = true
  · have hn : pmFind m k = none := (pmInsert_fst m k v).mp hb
    have hk : k ∉ pmKeys m := (pmFind_none_iff m k).mp hn
    simp [hb, List.nodup_append, h, hk]
  · simp [hb, h]

lemma pmInsert_inv {m : PortMap} {k : String} {v : PortInfo}
    (hm : TableInv m) (hv : v.const_map = initializeConstMap v.typ) :
    TableInv (pmInsert m k v).2 := by
  rw [pmInsert_snd]
  intro e he
  rcases List.mem_append.mp he with h1 | h2
  · exact hm e h1
  · by_cases hb : (pmInsert m k v).1 = true
    · simp [hb] at h2
      subst h2
      exact hv
    · simp [hb] at h2

/-! ### `insertAll` lemmas -/

lemma insertAll_preserves {m : PortMap} {k : String} {w : PortInfo}
    (l : List (String × PortInfo)) (h : pmFind m k = some w) :
    pmFind (insertAll m l) k = some w := by
  induction l generalizing m with
  | nil => exact h
  | cons e rest ih =>
    rw [insertAll]
    exact ih (pmInsert_preserves e.1 e.2 h)

lemma insertAll_keys (m : PortMap) (l : List (String × PortInfo)) :
    pmKeys (insertAll m l) = pmKeys m ++ pmInsertNames m l := by
  induction l generalizing m with
  | nil => simp [insertAll, pmInsertNames]
  | cons e rest ih =>
    rw [insertAll, pmInsertNames, ih, pmInsert_keys]
    by_cases hb : (pmInsert m e.1 e.2).1 = true <;> simp [hb]

lemma insertAll_length (m : PortMap) (l : List (String × PortInfo)) :
    (insertAll m l).length = m.length + (pmInsertNames m l).length := by
  have h := congrArg List.length (insertAll_keys m l)
  simpa [pmKeys] using h

lemma insertAll_nodup {m : PortMap} (l : List (String × PortInfo))
    (h : (pmKeys m).Nodup) : (pmKeys (insertAll m l)).Nodup := by
  induction l generalizing m with
  | nil => exact h
  | cons e rest ih =>
    rw [insertAll]
    exact ih (pmInsert_nodup e.1 e.2 h)

lemma insertAll_inv {m : PortMap} {l : List (String × PortInfo)}
    (hm : TableInv m) (hl : ∀ e ∈ l, e.2.const_map = initializeConstMap e.2.typ) :
    TableInv (insertAll m l) := by
  induction l generalizing m with
  | nil => exact hm
  | cons e rest ih =>
    rw [insertAll]
    exact ih (pmInsert_inv hm (hl e (List.mem_cons_self e rest)))
      (fun e2 he2 => hl e2 (List.mem_cons_of_mem e he2))

/-! ### The `addPorts` loop as sequential insertion -/

lemma addPortsFold_eq (K A : Nat) (T : TypeTag) (szT inc adder np : Nat) :
    ∀ (l : List Nat) (m : PortMap) (c : Nat),
    l.foldl (addPortsStep K A T szT inc adder np) (m, c)
      = (insertAll m (l.map (fun i => (Nat.repr i, addPortsRec K A T szT inc adder np i))),
         c + (pmInsertNames m
           (l.map (fun i => (Nat.repr i, addPortsRec K A T szT inc adder np i)))).length) := by
  intro l
  induction l with
  | nil => intro m c; simp [insertAll, pmInsertNames]
  | cons i rest ih =>
    intro m c
    simp only [List.foldl_cons, List.map_cons, addPortsStep, insertAll, pmInsertNames]
    rw [ih]
    simp only [Prod.mk.injEq, List.length_append, true_and]
    by_cases hb : (pmInsert m (Nat.repr i) (addPortsRec K A T szT inc adder np i)).1 = true
    all_goals simp [hb]
    all_goals omega

lemma applyOp_portmap (p : Port) (o : Op) :
    (p.applyOp o).portmap = insertAll p.portmap (p.opCandidates o) := by
  cases o with
  | addPort T name =>
    simp [Port.applyOp, Port.addPort, Port.opCandidates, insertAll]
  | addPorts T szT n =>
    by_cases hn : n = 0
    · subst hn
      simp [Port.applyOp, Port.addPorts, Port.opCandidates, insertAll]
    · simp only [Port.applyOp, Port.addPorts, if_neg hn, Port.opCandidates]
      rw [addPortsFold_eq]

/-! ### The factory registry built by `initializeConstMap` -/

lemma initializeConstMap_eq (T : TypeTag) :
    initializeConstMap T =
      [(.Heap, [(false, ⟨T, .Heap, false⟩), (true, ⟨T, .Heap, true⟩)]),
       (.SharedMemory, [(false, ⟨T, .SharedMemory, false⟩)])] := rfl

lemma cmFind_initialize (T : TypeTag) :
    cmFind (initializeConstMap T) .Heap false = some ⟨T, .Heap, false⟩ ∧
    cmFind (initializeConstMap T) .Heap true = some ⟨T, .Heap, true⟩ ∧
    cmFind (initializeConstMap T) .SharedMemory false = some ⟨T, .SharedMemory, false⟩ ∧
    cmFind (initializeConstMap T) .SharedMemory true = none ∧
    cmSize (initializeConstMap T) = 3 :=
  ⟨rfl, rfl, rfl, rfl, rfl⟩

/-! ### Reachable-state lemmas -/

lemma enumerate_applyOp (p : Port) (o : Op) :
    (p.applyOp o).enumerate = p.enumerate ++ pmInsertNames p.portmap (p.opCandidates o) := by
  show pmKeys (p.applyOp o).portmap = pmKeys p.portmap ++ _
  rw [applyOp_portmap, insertAll_keys]

lemma enumerate_runOps (p : Port) (ops : List Op) :
    (p.runOps ops).enumerate = p.enumerate ++ p.insertedNames ops := by
  induction ops generalizing p with
  | nil =>
    show p.enumerate = p.enumerate ++ p.insertedNames []
    rw [Port.insertedNames, List.append_nil]
  | cons o rest ih =>
    show ((p.applyOp o).runOps rest).enumerate = _
    rw [ih, enumerate_applyOp, Port.insertedNames, List.append_assoc]

lemma nodup_applyOp {p : Port} (o : Op) (h : (pmKeys p.portmap).Nodup) :
    (pmKeys (p.applyOp o).portmap).Nodup := by
  rw [applyOp_portmap]
  exact insertAll_nodup _ h

lemma nodup_runOps {p : Port} (ops : List Op) (h : (pmKeys p.portmap).Nodup) :
    (pmKeys (p.runOps ops).portmap).Nodup := by
  induction ops generalizing p with
  | nil => exact h
  | cons o rest ih => exact ih (nodup_applyOp o h)

lemma opCandidates_inv (p : Port) (o : Op) :
    ∀ e ∈ p.opCandidates o, e.2.const_map = initializeConstMap e.2.typ := by
  cases o with
  | addPort T name =>
    intro e he
    simp only [Port.opCandidates, List.mem_singleton] at he
    subst he
    rfl
  | addPorts T szT n =>
    intro e he
    by_cases hn : n = 0
    · simp [Port.opCandidates, hn] at he
    · simp only [Port.opCandidates, if_neg hn] at he
      obtain ⟨i, hi, rfl⟩ := List.mem_map.mp he
      rfl

lemma inv_runOps {p : Port} (ops : List Op) (h : TableInv p.portmap) :
    TableInv (p.runOps ops).portmap := by
  induction ops generalizing p with
  | nil => exact h
  | cons o rest ih =>
    refine ih ?_
    rw [applyOp_portmap]
    exact insertAll_inv h (opCandidates_inv p o)

/-! ### The `addPorts` loop from an empty table -/

lemma repr_not_mem_range (n : Nat) : Nat.repr n ∉ (List.range n).map Nat.repr := by
  intro h
  obtain ⟨j, hj, hrep⟩ := List.mem_map.mp h
  have hjn := natRepr_injective hrep
  exact absurd (List.mem_range.mp hj) (by omega)

lemma pmKeys_mapped_range (f : Nat → PortInfo) (n : Nat) :
    pmKeys ((List.range n).map (fun j => (Nat.repr j, f j))) = (List.range n).map Nat.repr := by
  rw [pmKeys, List.map_map]
  rfl

lemma range_fold_closed (K A : Nat) (T : TypeTag) (szT inc adder n : Nat) :
    ∀ j, (List.range j).foldl (addPortsStep K A T szT inc adder n) ([], 0)
      = ((List.range j).map (fun i => (Nat.repr i, addPortsRec K A T szT inc adder n i)), j) := by
  intro j
  induction j with
  | zero => rfl
  | succ j ih =>
    rw [List.range_succ, List.foldl_append, ih]
    have hfresh : pmFind
        ((List.range j).map (fun i => (Nat.repr i, addPortsRec K A T szT inc adder n i)))
        (Nat.repr j) = none := by
      rw [pmFind_none_iff, pmKeys_mapped_range]
      exact repr_not_mem_range j
    have hb : (pmInsert
        ((List.range j).map (fun i => (Nat.repr i, addPortsRec K A T szT inc adder n i)))
        (Nat.repr j) (addPortsRec K A T szT inc adder n j)).1 = true :=
      (pmInsert_fst _ _ _).mpr hfresh
    simp only [List.foldl_cons, List.foldl_nil, addPortsStep]
    rw [List.map_append, List.map_cons, List.map_nil]
    simp only [Prod.mk.injEq]
    constructor
    · rw [pmInsert_snd, if_pos hb]
    · rw [if_pos hb]

lemma pmFind_mapped_range (f : Nat → PortInfo) (n i : Nat) (hi : i < n) :
    pmFind ((List.range n).map (fun j => (Nat.repr j, f j))) (Nat.repr i) = some (f i) := by
  induction n with
  | zero => omega
  | succ n ih =>
    rw [List.range_succ, List.map_append, pmFind_append]
    by_cases h : i = n
    · subst h
      have hnone : pmFind ((List.range i).map (fun j => (Nat.repr j, f j))) (Nat.repr i)
          = none := by
        rw [pmFind_none_iff, pmKeys_mapped_range]
        exact repr_not_mem_range i
      rw [hnone]
      simp [pmFind_cons]
    · rw [ih (by omega)]
      rfl

lemma addPorts_empty (p : Port) (T : TypeTag) (szT n : Nat) (hn : n ≠ 0)
    (hemp : p.portmap = []) :
    p.addPorts T szT n = some (true, addPortsResult p T szT n) := by
  simp only [Port.addPorts, if_neg hn, addPortsResult, addPortsTable]
  rw [hemp, range_fold_closed]

/-! ### Slice arithmetic -/

lemma sum_map_range_const (g : Nat → Nat) (q : Nat) :
    ∀ m, (∀ i, i < m → g i = q) → ((List.range m).map g).sum = m * q := by
  intro m
  induction m with
  | zero => intro _; simp
  | succ m ih =>
    intro h
    rw [List.range_succ, List.map_append, List.sum_append,
      ih (fun i hi => h i (by omega))]
    simp only [List.map_cons, List.map_nil, List.sum_cons, List.sum_nil]
    rw [h m (by omega), Nat.succ_mul]
    omega

lemma sum_sliceLen (L n : Nat) (hn : 0 < n) :
    ((List.range n).map (sliceLen L n)).sum = L := by
  obtain ⟨m, rfl⟩ : ∃ m, n = m + 1 := ⟨n - 1, by omega⟩
  rw [List.range_succ, List.map_append, List.sum_append]
  rw [sum_map_range_const (sliceLen L (m + 1)) (L / (m + 1)) m
    (fun i hi => by rw [sliceLen, if_neg (by omega)]; omega)]
  simp only [List.map_cons, List.map_nil, List.sum_cons, List.sum_nil]
  rw [sliceLen, if_pos (by omega)]
  have h2 : (m + 1) * (L / (m + 1)) + L % (m + 1) = L := Nat.div_add_mod L (m + 1)
  have h3 : (m + 1) * (L / (m + 1)) = m * (L / (m + 1)) + L / (m + 1) := by ring
  omega

lemma sliceStart_disjoint (L n i j : Nat) (hij : i < j) (hjn : j < n) :
    sliceStart L n i + sliceLen L n i ≤ sliceStart L n j := by
  rw [sliceStart, sliceStart, sliceLen, if_neg (show i ≠ n - 1 by omega)]
  have h1 : (i + 1) * (L / n) ≤ j * (L / n) :=
    Nat.mul_le_mul_right _ (by omega)
  calc i * (L / n) + (L / n + 0) = (i + 1) * (L / n) := by ring
    _ ≤ j * (L / n) := h1

/-! ### Lookup helpers -/

lemma pmInsert_some {m : PortMap} {k : String} {w : PortInfo} (v : PortInfo)
    (h : pmFind m k = some w) : pmInsert m k v = (false, m) := by
  have hf : (pmInsert m k v).1 = false := by
    cases hb : (pmInsert m k v).1
    · rfl
    · exact absurd ((pmInsert_fst m k v).mp hb) (by rw [h]; simp)
  have hs := pmInsert_snd m k v
  rw [hf] at hs
  simp only [Bool.false_eq_true, if_false, List.append_nil] at hs
  calc pmInsert m k v = ((pmInsert m k v).1, (pmInsert m k v).2) := rfl
    _ = (false, m) := by rw [hf, hs]

lemma pmFind_some_mem {m : PortMap} {k : String} {v : PortInfo}
    (h : pmFind m k = some v) : ∃ e ∈ m, e.2 = v := by
  rw [pmFind] at h
  cases hf : List.find? (fun e => e.1 == k) m with
  | none => rw [hf] at h; cases h
  | some e =>
    rw [hf] at h
    exact ⟨e, List.mem_of_find?_eq_some hf, Option.some.inj h⟩

lemma getPortType_error_iff (p : Port) (name : String) :
    p.getPortType name = .error .PortNotFound ↔ pmFind p.portmap name = none := by
  cases h : pmFind p.portmap name <;> simp [Port.getPortType, h]

lemma indexOp_error_iff (p : Port) (name : String) :
    p.indexOp name = .error .PortNotFound ↔ pmFind p.portmap name = none := by
  cases h : pmFind p.portmap name <;> simp [Port.indexOp, h]

lemma getPortInfoFor_error_iff (p : Port) (name : String) :
    p.getPortInfoFor name = .error .PortNotFound ↔ pmFind p.portmap name = none := by
  cases h : pmFind p.portmap name <;> simp [Port.getPortInfoFor, h]

lemma hasPorts_iff_count (p : Port) : p.hasPorts = true ↔ 0 < p.count := by
  rw [Port.hasPorts, Port.count]
  cases p.portmap <;> simp

lemma keys_runOps_base (k a l : Nat) (ops : List Op) :
    pmKeys ((Port.mkPre k a l).runOps ops).portmap = (Port.mkPre k a l).insertedNames ops := by
  have h := enumerate_runOps (Port.mkPre k a l) ops
  simpa [Port.enumerate, pmKeys, Port.mkPre] using h

/-! ## Claims -/

/-- C1: for every element type `T`, over a buffer of `L = alloc_ptr_length / sizeof(T)`
elements, `addPorts<T>(n)` with `n > 0` on a port with an empty table inserts exactly
`n` records named by the decimal strings of `0` through `n - 1`; record `i` occupies
the slice starting at element offset `i * (L / n)` with length `L / n`, except the
last record, which additionally absorbs `L % n`; the slice lengths sum exactly to `L`
and the slices are pairwise non-overlapping. -/
theorem C1_addPorts_partition (p : Port) (T : TypeTag) (szT n : Nat)
    (hn : 0 < n) (hemp : p.portmap = []) :
    ∃ p', p.addPorts T szT n = some (true, p') ∧
      p'.count = n ∧
      (∀ i, i < n →
        pmFind p'.portmap (Nat.repr i) = some
          { typ := T, my_kernel := p.kernel, my_name := Nat.repr i,
            prealloc := some
              { ptr := p.alloc_ptr + sliceStart (p.alloc_ptr_length / szT) n i * szT,
                nitems := sliceLen (p.alloc_ptr_length / szT) n i,
                start_index := sliceStart (p.alloc_ptr_length / szT) n i },
            const_map := initializeConstMap T }) ∧
      ((List.range n).map (sliceLen (p.alloc_ptr_length / szT) n)).sum
        = p.alloc_ptr_length / szT ∧
      (∀ i j, i < j → j < n →
        sliceStart (p.alloc_ptr_length / szT) n i + sliceLen (p.alloc_ptr_length / szT) n i
          ≤ sliceStart (p.alloc_ptr_length / szT) n j) := by
  refine ⟨addPortsResult p T szT n, addPorts_empty p T szT n (by omega) hemp, ?_, ?_,
    sum_sliceLen _ _ hn, fun i j hij hjn => sliceStart_disjoint _ _ _ _ hij hjn⟩
  · show (addPortsTable p T szT n).length = n
    rw [addPortsTable]
    simp
  · intro i hi
    show pmFind (addPortsTable p T szT n) (Nat.repr i) = _
    rw [addPortsTable, pmFind_mapped_range _ n i hi]
    rfl

/-- Witness for C1: a port over a 10-byte buffer of 1-byte elements split three ways
gets slices of lengths 3, 3, 4 at offsets 0, 3, 6. -/
theorem C1_witness :
    0 < 3 ∧ (Port.mkPre 7 100 10).portmap = [] ∧
    ∃ p', (Port.mkPre 7 100 10).addPorts ⟨0⟩ 1 3 = some (true, p') ∧
      p'.count = 3 ∧
      (∀ i, i < 3 →
        pmFind p'.portmap (Nat.repr i) = some
          { typ := ⟨0⟩, my_kernel := (Port.mkPre 7 100 10).kernel, my_name := Nat.repr i,
            prealloc := some
              { ptr := (Port.mkPre 7 100 10).alloc_ptr +
                  sliceStart ((Port.mkPre 7 100 10).alloc_ptr_length / 1) 3 i * 1,
                nitems := sliceLen ((Port.mkPre 7 100 10).alloc_ptr_length / 1) 3 i,
                start_index := sliceStart ((Port.mkPre 7 100 10).alloc_ptr_length / 1) 3 i },
            const_map := initializeConstMap ⟨0⟩ }) ∧
      ((List.range 3).map (sliceLen ((Port.mkPre 7 100 10).alloc_ptr_length / 1) 3)).sum
        = (Port.mkPre 7 100 10).alloc_ptr_length / 1 ∧
      (∀ i j, i < j → j < 3 →
        sliceStart ((Port.mkPre 7 100 10).alloc_ptr_length / 1) 3 i +
            sliceLen ((Port.mkPre 7 100 10).alloc_ptr_length / 1) 3 i
          ≤ sliceStart ((Port.mkPre 7 100 10).alloc_ptr_length / 1) 3 j) :=
  ⟨by decide, rfl, C1_addPorts_partition (Port.mkPre 7 100 10) ⟨0⟩ 1 3 (by decide) rfl⟩

/-- C2: `addPort<T>(name)` on a fresh name returns true and inserts the record built
for `(T, name)`; any subsequent call with the same name (any element type) returns
false and leaves the table, and in particular the first declaration's record, fully
unchanged. -/
theorem C2_addPort_first_wins (p : Port) (T T2 : TypeTag) (name : String) :
    (pmFind p.portmap name = none →
      (p.addPort T name).1 = true ∧
      pmFind (p.addPort T name).2.portmap name = some (addPortRec p.kernel T name)) ∧
    (∀ pi0, pmFind p.portmap name = some pi0 →
      (p.addPort T2 name).1 = false ∧ (p.addPort T2 name).2 = p ∧
      pmFind (p.addPort T2 name).2.portmap name = some pi0) := by
  constructor
  · intro h
    constructor
    · show (pmInsert p.portmap name (addPortRec p.kernel T name)).1 = true
      exact (pmInsert_fst _ _ _).mpr h
    · show pmFind (pmInsert p.portmap name (addPortRec p.kernel T name)).2 name = _
      exact pmInsert_find_self _ h
  · intro pi0 h
    have hins := pmInsert_some (addPortRec p.kernel T2 name) h
    refine ⟨?_, ?_, ?_⟩
    · show (pmInsert p.portmap name (addPortRec p.kernel T2 name)).1 = false
      rw [hins]
    · show ({ p with portmap := (pmInsert p.portmap name (addPortRec p.kernel T2 name)).2 }) = p
      rw [hins]
    · show pmFind (pmInsert p.portmap name (addPortRec p.kernel T2 name)).2 name = some pi0
      rw [hins]
      exact h

/-- Witness for C2: inserting `"x"` succeeds once; a second insert under a different
element type fails and changes nothing. -/
theorem C2_witness :
    pmFind (Port.mk0 3).portmap "x" = none ∧
    ((Port.mk0 3).addPort ⟨1⟩ "x").1 = true ∧
    pmFind ((Port.mk0 3).addPort ⟨1⟩ "x").2.portmap "x" = some (addPortRec 3 ⟨1⟩ "x") ∧
    ((((Port.mk0 3).addPort ⟨1⟩ "x").2.addPort ⟨2⟩ "x").1 = false ∧
      (((Port.mk0 3).addPort ⟨1⟩ "x").2.addPort ⟨2⟩ "x").2 = ((Port.mk0 3).addPort ⟨1⟩ "x").2 ∧
      pmFind (((Port.mk0 3).addPort ⟨1⟩ "x").2.addPort ⟨2⟩ "x").2.portmap "x"
        = some (addPortRec 3 ⟨1⟩ "x")) := by
  have h1 := (C2_addPort_first_wins (Port.mk0 3) ⟨1⟩ ⟨1⟩ "x").1 rfl
  have h2 := (C2_addPort_first_wins ((Port.mk0 3).addPort ⟨1⟩ "x").2 ⟨1⟩ ⟨2⟩ "x").2
    (addPortRec 3 ⟨1⟩ "x") h1.2
  exact ⟨rfl, h1.1, h1.2, h2⟩

/-- C3: `addPorts` reports success whenever it returns at all, and the
division-by-zero branch of the embedding is reached exactly when `n_ports = 0`. -/
theorem C3_addPorts_total (p : Port) (T : TypeTag) (szT n : Nat) :
    (p.addPorts T szT n = none ↔ n = 0) ∧
    (∀ b p', p.addPorts T szT n = some (b, p') → b = true) := by
  constructor
  · constructor
    · intro h
      by_contra hn
      simp only [Port.addPorts, if_neg hn] at h
      cases h
    · intro h
      subst h
      rfl
  · intro b p' h
    by_cases hn : n = 0
    · subst hn
      simp only [Port.addPorts, if_pos rfl] at h
      cases h
    · simp only [Port.addPorts, if_neg hn] at h
      have hp := Option.some.inj h
      have := congrArg Prod.fst hp
      exact this.symm

/-- Witness for C3: `n_ports = 0` reaches the division-by-zero branch; `n_ports = 2`
returns and the returned boolean is true. -/
theorem C3_witness :
    (Port.mk0 0).addPorts ⟨0⟩ 4 0 = none ∧
    ∃ b p', (Port.mk0 0).addPorts ⟨0⟩ 4 2 = some (b, p') ∧ b = true := by
  refine ⟨(C3_addPorts_total (Port.mk0 0) ⟨0⟩ 4 0).1.mpr rfl, ?_⟩
  cases he : (Port.mk0 0).addPorts ⟨0⟩ 4 2 with
  | none => exact absurd ((C3_addPorts_total (Port.mk0 0) ⟨0⟩ 4 2).1.mp he) (by decide)
  | some r =>
    obtain ⟨b, p'⟩ := r
    exact ⟨b, p', rfl, (C3_addPorts_total (Port.mk0 0) ⟨0⟩ 4 2).2 b p' he⟩

/-- C4: in every reachable state, each of `getPortType`, `operator[]` and
`getPortInfoFor` fails with `PortNotFound` iff the name was never successfully
inserted; when the name is present each returns the stored data and no error is
raised. -/
theorem C4_lookup_errors (k a l : Nat) (ops : List Op) (name : String) :
    (((Port.mkPre k a l).runOps ops).getPortType name = .error .PortNotFound ↔
      name ∉ (Port.mkPre k a l).insertedNames ops) ∧
    (((Port.mkPre k a l).runOps ops).indexOp name = .error .PortNotFound ↔
      name ∉ (Port.mkPre k a l).insertedNames ops) ∧
    (((Port.mkPre k a l).runOps ops).getPortInfoFor name = .error .PortNotFound ↔
      name ∉ (Port.mkPre k a l).insertedNames ops) ∧
    (∀ pi, pmFind ((Port.mkPre k a l).runOps ops).portmap name = some pi →
      ((Port.mkPre k a l).runOps ops).getPortType name = .ok pi.typ ∧
      ((Port.mkPre k a l).runOps ops).indexOp name = .ok pi ∧
      ((Port.mkPre k a l).runOps ops).getPortInfoFor name = .ok pi) := by
  have hnone : pmFind ((Port.mkPre k a l).runOps ops).portmap name = none ↔
      name ∉ (Port.mkPre k a l).insertedNames ops := by
    rw [pmFind_none_iff, keys_runOps_base]
  refine ⟨?_, ?_, ?_, ?_⟩
  · rw [getPortType_error_iff]
    exact hnone
  · rw [indexOp_error_iff]
    exact hnone
  · rw [getPortInfoFor_error_iff]
    exact hnone
  · intro pi h
    exact ⟨by simp [Port.getPortType, h], by simp [Port.indexOp, h],
      by simp [Port.getPortInfoFor, h]⟩

/-- Witness for C4: after declaring `"in"`, lookups of `"missing"` fail with
`PortNotFound` and lookups of `"in"` return the stored data. -/
theorem C4_witness :
    "missing" ∉ (Port.mkPre 0 0 0).insertedNames [Op.addPort ⟨1⟩ "in"] ∧
    ((Port.mkPre 0 0 0).runOps [Op.addPort ⟨1⟩ "in"]).getPortType "missing"
      = .error .PortNotFound ∧
    ((Port.mkPre 0 0 0).runOps [Op.addPort ⟨1⟩ "in"]).getPortType "in" = .ok ⟨1⟩ ∧
    ((Port.mkPre 0 0 0).runOps [Op.addPort ⟨1⟩ "in"]).indexOp "in"
      = .ok (addPortRec 0 ⟨1⟩ "in") ∧
    ((Port.mkPre 0 0 0).runOps [Op.addPort ⟨1⟩ "in"]).getPortInfoFor "in"
      = .ok (addPortRec 0 ⟨1⟩ "in") := by
  have h1 := (C4_lookup_errors 0 0 0 [Op.addPort ⟨1⟩ "in"] "missing").1
  have h2 := (C4_lookup_errors 0 0 0 [Op.addPort ⟨1⟩ "in"] "in").2.2.2
    (addPortRec 0 ⟨1⟩ "in") rfl
  exact ⟨by decide, h1.mpr (by decide), h2.1, h2.2.1, h2.2.2⟩

/-- C5: the no-argument `getPortInfo` succeeds with the unique record iff the table
holds exactly one entry, and fails with `AmbiguousPort` when it holds zero or more
than one. -/
theorem C5_getPortInfo_unique (p : Port) :
    (p.getPortInfo = .error .AmbiguousPort ↔ p.count ≠ 1) ∧
    (∀ e, p.portmap = [e] → p.getPortInfo = .ok e.2) := by
  constructor
  · cases hm : p.portmap with
    | nil => simp [Port.getPortInfo, hm, Port.count]
    | cons e rest =>
      cases rest with
      | nil => simp [Port.getPortInfo, hm, Port.count]
      | cons e2 rest2 =>
        simp only [Port.getPortInfo, hm, Port.count]
        constructor
        · intro _
          simp
        · intro _
          trivial
  · intro e he
    simp [Port.getPortInfo, he]

/-- Witness for C5: an empty port and a two-port table fail with `AmbiguousPort`;
a single-port table returns its record. -/
theorem C5_witness :
    ((Port.mk0 0).getPortInfo = .error .AmbiguousPort ∧ (Port.mk0 0).count ≠ 1) ∧
    ((Port.mk0 0).addPort ⟨1⟩ "x").2.getPortInfo = .ok (addPortRec 0 ⟨1⟩ "x") ∧
    (((Port.mk0 0).addPort ⟨1⟩ "x").2.addPort ⟨1⟩ "y").2.getPortInfo
      = .error .AmbiguousPort := by
  refine ⟨⟨(C5_getPortInfo_unique (Port.mk0 0)).1.mpr (by decide), by decide⟩, ?_, ?_⟩
  · exact (C5_getPortInfo_unique _).2 ("x", addPortRec 0 ⟨1⟩ "x") rfl
  · exact (C5_getPortInfo_unique _).1.mpr (by decide)

/-- C6: every record in every reachable table state carries a factory registry with
exactly the three entries `(Heap, uninstrumented)`, `(Heap, instrumented)` and
`(SharedMemory, uninstrumented)`, and no `(SharedMemory, instrumented)` entry. -/
theorem C6_factory_registry (k a l : Nat) (ops : List Op) (name : String) (pi : PortInfo)
    (h : pmFind ((Port.mkPre k a l).runOps ops).portmap name = some pi) :
    cmFind pi.const_map .Heap false = some ⟨pi.typ, .Heap, false⟩ ∧
    cmFind pi.const_map .Heap true = some ⟨pi.typ, .Heap, true⟩ ∧
    cmFind pi.const_map .SharedMemory false = some ⟨pi.typ, .SharedMemory, false⟩ ∧
    cmFind pi.const_map .SharedMemory true = none ∧
    cmSize pi.const_map = 3 := by
  have hinv : TableInv ((Port.mkPre k a l).runOps ops).portmap :=
    inv_runOps ops (fun e he => absurd he (List.not_mem_nil e))
  obtain ⟨e, hmem, he2⟩ := pmFind_some_mem h
  have hcm : pi.const_map = initializeConstMap pi.typ := by
    have hx := hinv e hmem
    rw [he2] at hx
    exact hx
  rw [hcm]
  exact cmFind_initialize pi.typ

/-- Witness for C6: the record declared for `"x"` holds the three factories and no
instrumented shared-memory one. -/
theorem C6_witness :
    pmFind ((Port.mkPre 0 0 0).runOps [Op.addPort ⟨5⟩ "x"]).portmap "x"
      = some (addPortRec 0 ⟨5⟩ "x") ∧
    (cmFind (addPortRec 0 ⟨5⟩ "x").const_map .Heap false
        = some ⟨(addPortRec 0 ⟨5⟩ "x").typ, .Heap, false⟩ ∧
      cmFind (addPortRec 0 ⟨5⟩ "x").const_map .Heap true
        = some ⟨(addPortRec 0 ⟨5⟩ "x").typ, .Heap, true⟩ ∧
      cmFind (addPortRec 0 ⟨5⟩ "x").const_map .SharedMemory false
        = some ⟨(addPortRec 0 ⟨5⟩ "x").typ, .SharedMemory, false⟩ ∧
      cmFind (addPortRec 0 ⟨5⟩ "x").const_map .SharedMemory true = none ∧
      cmSize (addPortRec 0 ⟨5⟩ "x").const_map = 3) :=
  ⟨rfl, C6_factory_registry 0 0 0 [Op.addPort ⟨5⟩ "x"] "x" (addPortRec 0 ⟨5⟩ "x") rfl⟩

/-- C7: in every reachable state `hasPorts` is true iff `count` is positive, and
`count` equals the number of distinct names successfully inserted by the preceding
sequence of `addPort`/`addPorts` calls. -/
theorem C7_count_hasPorts (k a l : Nat) (ops : List Op) :
    (((Port.mkPre k a l).runOps ops).hasPorts = true ↔
      0 < ((Port.mkPre k a l).runOps ops).count) ∧
    ((Port.mkPre k a l).runOps ops).count
      = ((Port.mkPre k a l).insertedNames ops).length ∧
    ((Port.mkPre k a l).insertedNames ops).Nodup := by
  refine ⟨hasPorts_iff_count _, ?_, ?_⟩
  · have h := congrArg List.length (keys_runOps_base k a l ops)
    simpa [pmKeys, Port.count] using h
  · have h := nodup_runOps ops (p := Port.mkPre k a l) (by simp [Port.mkPre, pmKeys])
    rwa [keys_runOps_base] at h

/-- Witness for C7: after a duplicate insert of `"a"` and one of `"b"`, the count is
the number of successful insertions, namely 2. -/
theorem C7_witness :
    (((Port.mkPre 0 0 0).runOps
        [Op.addPort ⟨1⟩ "a", Op.addPort ⟨1⟩ "a", Op.addPort ⟨2⟩ "b"]).hasPorts = true ↔
      0 < ((Port.mkPre 0 0 0).runOps
        [Op.addPort ⟨1⟩ "a", Op.addPort ⟨1⟩ "a", Op.addPort ⟨2⟩ "b"]).count) ∧
    ((Port.mkPre 0 0 0).runOps
        [Op.addPort ⟨1⟩ "a", Op.addPort ⟨1⟩ "a", Op.addPort ⟨2⟩ "b"]).count
      = ((Port.mkPre 0 0 0).insertedNames
        [Op.addPort ⟨1⟩ "a", Op.addPort ⟨1⟩ "a", Op.addPort ⟨2⟩ "b"]).length ∧
    ((Port.mkPre 0 0 0).insertedNames
      [Op.addPort ⟨1⟩ "a", Op.addPort ⟨1⟩ "a", Op.addPort ⟨2⟩ "b"]).Nodup :=
  C7_count_hasPorts 0 0 0 [Op.addPort ⟨1⟩ "a", Op.addPort ⟨1⟩ "a", Op.addPort ⟨2⟩ "b"]

/-- C8: enumeration visits exactly the successfully inserted names, each once, in the
order of their first successful insertion — deterministic, stable under repetition,
and in particular not the alphabetical order of the names: the single-character names
`"b"` then `"a"` enumerate as `["b", "a"]` although `'a' < 'b'`, so the name that is
alphabetically first is visited last. -/
theorem C8_enumeration_order (k a l : Nat) (ops : List Op) :
    ((Port.mkPre k a l).runOps ops).enumerate = (Port.mkPre k a l).insertedNames ops ∧
    ((Port.mkPre k a l).runOps ops).enumerate.Nodup ∧
    ((((Port.mk0 9).addPort ⟨0⟩ "b").2.addPort ⟨0⟩ "a").2.enumerate = ["b", "a"] ∧
      ("b", "a") = (String.mk ['b'], String.mk ['a']) ∧ 'a' < 'b') := by
  refine ⟨?_, ?_, by decide, by decide⟩
  · have h := enumerate_runOps (Port.mkPre k a l) ops
    simpa [Port.enumerate, Port.mkPre] using h
  · exact nodup_runOps ops (p := Port.mkPre k a l) (by simp [Port.mkPre, pmKeys])

/-- Witness for C8: inserting `"b"` then `"a"` enumerates as `["b", "a"]`, the
insertion order. -/
theorem C8_witness :
    ((Port.mkPre 0 0 0).runOps [Op.addPort ⟨0⟩ "b", Op.addPort ⟨0⟩ "a"]).enumerate
      = (Port.mkPre 0 0 0).insertedNames [Op.addPort ⟨0⟩ "b", Op.addPort ⟨0⟩ "a"] ∧
    ((Port.mkPre 0 0 0).runOps [Op.addPort ⟨0⟩ "b", Op.addPort ⟨0⟩ "a"]).enumerate.Nodup ∧
    ((((Port.mk0 9).addPort ⟨0⟩ "b").2.addPort ⟨0⟩ "a").2.enumerate = ["b", "a"] ∧
      ("b", "a") = (String.mk ['b'], String.mk ['a']) ∧ 'a' < 'b') :=
  C8_enumeration_order 0 0 0 [Op.addPort ⟨0⟩ "b", Op.addPort ⟨0⟩ "a"]

/-- C9: when the table already binds a name that `addPorts` would use, the colliding
insertion is silently skipped — the existing record keeps its element type and
descriptor — and `addPorts` nevertheless returns true, the per-insertion success
value being discarded. -/
theorem C9_addPorts_skips_collisions (p : Port) (T : TypeTag) (szT n : Nat)
    (name : String) (pi0 : PortInfo) (hn : 0 < n)
    (h : pmFind p.portmap name = some pi0) :
    ∃ p', p.addPorts T szT n = some (true, p') ∧ pmFind p'.portmap name = some pi0 := by
  have hn0 : n ≠ 0 := by omega
  simp only [Port.addPorts, if_neg hn0]
  rw [addPortsFold_eq]
  exact ⟨_, rfl, insertAll_preserves _ h⟩

/-- Witness for C9: a second `addPorts` call under a different element type returns
true and leaves the record previously inserted for `"0"` unchanged. -/
theorem C9_witness :
    0 < 2 ∧
    pmFind ((Port.mkPre 0 0 8).applyOp (Op.addPorts ⟨1⟩ 4 2)).portmap "0"
      = some { typ := ⟨1⟩, my_kernel := 0, my_name := "0",
               prealloc := some { ptr := 0, nitems := 1, start_index := 0 },
               const_map := initializeConstMap ⟨1⟩ } ∧
    ∃ p', ((Port.mkPre 0 0 8).applyOp (Op.addPorts ⟨1⟩ 4 2)).addPorts ⟨2⟩ 4 2
        = some (true, p') ∧
      pmFind p'.portmap "0"
        = some { typ := ⟨1⟩, my_kernel := 0, my_name := "0",
                 prealloc := some { ptr := 0, nitems := 1, start_index := 0 },
                 const_map := initializeConstMap ⟨1⟩ } :=
  ⟨by decide, by decide,
    C9_addPorts_skips_collisions ((Port.mkPre 0 0 8).applyOp (Op.addPorts ⟨1⟩ 4 2))
      ⟨2⟩ 4 2 "0" _ (by decide) (by decide)⟩

/-- C10: the pre-allocated-buffer precondition is never checked: on a port built by
the standard constructor (null `alloc_ptr`, zero `alloc_ptr_length`), `addPorts<T>(n)`
with `n > 0` still inserts `n` records named `"0"` through `"n-1"`, each carrying a
zero-length slice at element offset 0, and returns true. -/
theorem C10_no_buffer_check (kernel : Nat) (T : TypeTag) (szT n : Nat) (hn : 0 < n) :
    ∃ p', (Port.mk0 kernel).addPorts T szT n = some (true, p') ∧
      p'.count = n ∧
      (∀ i, i < n → pmFind p'.portmap (Nat.repr i) = some
        { typ := T, my_kernel := kernel, my_name := Nat.repr i,
          prealloc := some { ptr := 0, nitems := 0, start_index := 0 },
          const_map := initializeConstMap T }) := by
  refine ⟨addPortsResult (Port.mk0 kernel) T szT n,
    addPorts_empty _ _ _ _ (by omega) rfl, ?_, ?_⟩
  · show (addPortsTable (Port.mk0 kernel) T szT n).length = n
    rw [addPortsTable]
    simp
  · intro i hi
    show pmFind (addPortsTable (Port.mk0 kernel) T szT n) (Nat.repr i) = _
    rw [addPortsTable, pmFind_mapped_range _ n i hi]
    simp [addPortsRec, Port.mk0, Nat.zero_div, Nat.zero_mod]

/-- Witness for C10: a port with no pre-allocated buffer still gets two zero-length
ports named `"0"` and `"1"`. -/
theorem C10_witness :
    0 < 2 ∧
    ∃ p', (Port.mk0 1).addPorts ⟨3⟩ 4 2 = some (true, p') ∧
      p'.count = 2 ∧
      (∀ i, i < 2 → pmFind p'.portmap (Nat.repr i) = some
        { typ := ⟨3⟩, my_kernel := 1, my_name := Nat.repr i,
          prealloc := some { ptr := 0, nitems := 0, start_index := 0 },
          const_map := initializeConstMap ⟨3⟩ }) :=
  ⟨by decide, C10_no_buffer_check 1 ⟨3⟩ 4 2 (by decide)⟩

end RaftPort
